import Mathlib

set_option maxRecDepth 100000

set_option maxHeartbeats 1000000

/-!
Verification development for the TouchGrass Xcode-project maintenance scripts.

The scripts (`sync_xcode_project.py`, `add_files_to_xcode.py`,
`remove_from_xcode.py`, `clean_xcode_project.py`, `rebuild_xcode_project.py`)
mutate the `project.pbxproj` manifest by raw text surgery.  We embed the text
operations over `List Char` (called `Str` below), mirroring each Python string
or regex operation with an executable Lean function.  Filesystem scans and the
random UUID source are modelled as explicit input parameters: a scan is the
list of `(file name, relative path)` pairs the Python `find_swift_files`
walk would return, and the UUID source is the list of raw draws consumed in
order.  Regex character classes are read at ASCII (the manifests involved are
ASCII text).
-/

namespace TouchGrass

/-- Raw text, as a list of characters. -/
abbrev Str := List Char

/-- Coerce a Lean string literal to raw text. -/
def str (s : String) : Str := s.data

/-- Python substring test `needle in haystack`. -/
def containsSub : Str → Str → Bool
  | n, [] => n.isEmpty
  | n, c :: t => List.isPrefixOf n (c :: t) || containsSub n t

/-- Fuelled scan for `replaceAll`; every step consumes at least one source
character, so fuel equal to the text length suffices. -/
def replaceAllGo (pat rep : Str) : Nat → Str → Str
  | 0, s => s
  | _ + 1, [] => []
  | fuel + 1, c :: t =>
    if List.isPrefixOf pat (c :: t) ∧ pat ≠ [] then
      rep ++ replaceAllGo pat rep fuel (List.drop (pat.length - 1) t)
    else
      c :: replaceAllGo pat rep fuel t

/-- Python `str.replace(pat, rep)`: replace all non-overlapping occurrences of
`pat`, scanning left to right.  (Callers never pass an empty pattern; on an
empty pattern this returns the input unchanged.) -/
def replaceAll (pat rep s : Str) : Str := replaceAllGo pat rep s.length s

/-- Split text on newline characters, Python `content.split('\n')`. -/
def splitNL : Str → List Str
  | [] => [[]]
  | c :: t =>
    if c = '\n' then [] :: splitNL t
    else
      match splitNL t with
      | [] => [[c]]
      | l :: ls => (c :: l) :: ls

/-- Python `'\n'.join(lines)`. -/
def joinNL : List Str → Str
  | [] => []
  | [l] => l
  | l :: l2 :: ls => l ++ '\n' :: joinNL (l2 :: ls)

/-- First-seen deduplication, with an accumulator of names already seen.
Canonicalizes the iteration order of a Python `set` built by scanning text
left to right. -/
def distinctFrom (seen : List Str) : List Str → List Str
  | [] => []
  | x :: t => if seen.contains x then distinctFrom seen t else x :: distinctFrom (x :: seen) t

/-- Distinct elements of a list, first occurrence kept. -/
def distinct (l : List Str) : List Str := distinctFrom [] l

/-- Python dict insertion: replace the value at an existing key in place,
otherwise append the binding (3.7+ dict semantics). -/
def upsert (l : List (Str × Str)) (k v : Str) : List (Str × Str) :=
  match l with
  | [] => [(k, v)]
  | (k0, v0) :: t => if k0 = k then (k, v) :: t else (k0, v0) :: upsert t k v

/-- ASCII reading of the Python regex class `[\w\s]` (word or whitespace). -/
def isWordspace (c : Char) : Bool :=
  c.isAlphanum || c = '_' || c = ' ' || c = '\t' || c = '\n' || c = '\r' ||
    c = '\x0b' || c = '\x0c'

/-!
## sync_xcode_project.py
-/

/-- Model of `generate_uuid` (sync_xcode_project.py lines 12-14 and
rebuild_xcode_project.py lines 12-14): `''.join(str(uuid.uuid4()).upper().split('-'))[:24]`.
The argument is the canonical textual form of the fresh `uuid4()` draw;
upcasing then removing hyphens then truncating to 24 characters. -/
def generate_uuid (u : Str) : Str :=
  List.take 24 ((u.map Char.toUpper).filter (fun c => c ≠ '-'))

/-- Attempt to match the regex `/\* ([\w\s]+\.swift) \*/` at the head of `s`
(sync_xcode_project.py line 36).  Because `.` is not a `[\w\s]` character, the
greedy-with-backtracking `[\w\s]+` can only stop at the end of the maximal
word-or-space run, so the match succeeds exactly when that maximal run is
non-empty and is followed by the literal `.swift */`.  Returns the captured
name and the text after the whole match. -/
def matchSwiftComment (s : Str) : Option (Str × Str) :=
  if List.isPrefixOf (str "/* ") s then
    let rest := List.drop 3 s
    let run := rest.takeWhile isWordspace
    let after := rest.dropWhile isWordspace
    if run ≠ [] ∧ List.isPrefixOf (str ".swift */") after then
      some (run ++ str ".swift", List.drop 9 after)
    else none
  else none

/-- Left-to-right non-overlapping scan of `re.findall` for the pattern above;
the fuel starts at the text length, and every step consumes at least one
character. -/
def findSwiftNames : Nat → Str → List Str
  | 0, _ => []
  | _ + 1, [] => []
  | fuel + 1, c :: t =>
    match matchSwiftComment (c :: t) with
    | some (name, rest) => name :: findSwiftNames fuel rest
    | none => findSwiftNames fuel t

/-- Model of `get_existing_files` (sync_xcode_project.py lines 34-38): the
display names found by `re.findall(r'/\* ([\w\s]+\.swift) \*/', content)`.
The Python wraps the result in a `set`; we keep the scan order and use
membership, which is all the callers consult. -/
def get_existing_files (c : Str) : List Str := findSwiftNames c.length c

/-- Model of `re.sub(f'.*{re.escape(filename)}.*\n?', '', content, flags=re.MULTILINE)`
(sync_xcode_project.py lines 50-51): delete every line that contains the
file name as a substring, together with its newline. -/
def removeLinesContaining (name : Str) (c : Str) : Str :=
  joinNL ((splitNL c).filter (fun l => ! containsSub name l))

/-- The set `existing_in_project - filesystem_names`
(sync_xcode_project.py line 45), in first-extracted order.  The Python set
difference has unspecified iteration order; the removal loop's final content
and the count do not depend on that order, so a canonical order is fixed
here. -/
def files_to_remove (c : Str) (fsNames : List Str) : List Str :=
  (distinct (get_existing_files c)).filter (fun n => ! fsNames.contains n)

/-- Model of `remove_missing_files` (sync_xcode_project.py lines 40-53). -/
def remove_missing_files (c : Str) (fsFiles : List (Str × Str)) : Str × Nat :=
  let fsNames := fsFiles.map Prod.fst
  let rem := files_to_remove c fsNames
  (rem.foldl (fun acc n => removeLinesContaining n acc) c, rem.length)

/-- Model of `filesystem_dict = {name: path for name, path in filesystem_files}`
(sync_xcode_project.py line 57): later pairs with the same name overwrite the
stored path but keep the first insertion position. -/
def filesystem_dict (fs : List (Str × Str)) : List (Str × Str) :=
  fs.foldl (fun acc p => upsert acc p.1 p.2) []

/-- The fixed name skipped by `add_missing_files` (sync_xcode_project.py line 62). -/
def skipName : Str := str "GrassIconPreview.swift"

/-- The `files_to_add` list (sync_xcode_project.py lines 60-63). -/
def files_to_add (c : Str) (fs : List (Str × Str)) : List (Str × Str) :=
  (filesystem_dict fs).filter
    (fun p => ! (get_existing_files c).contains p.1 && p.1 ≠ skipName)

/-- The `/* End PBXFileReference section */` sentinel. -/
def endFileRefSec : Str := str "/* End PBXFileReference section */"

/-- The `/* End PBXBuildFile section */` sentinel. -/
def endBuildFileSec : Str := str "/* End PBXBuildFile section */"

/-- The PBXFileReference declaration line built at sync_xcode_project.py
line 75 and add_files_to_xcode.py line 31, without its trailing newline. -/
def fileRefLineCore (fid name path : Str) : Str :=
  str "\t\t" ++ fid ++ str " /* " ++ name ++
    str " */ = \x7bisa = PBXFileReference; lastKnownFileType = sourcecode.swift; path = \"" ++
    path ++ str "\"; sourceTree = \"<group>\"; \x7d;"

/-- The declaration line with its trailing newline, as inserted before the
PBXFileReference end sentinel. -/
def fileRefLine (fid name path : Str) : Str := fileRefLineCore fid name path ++ str "\n"

/-- The PBXBuildFile declaration line built at sync_xcode_project.py line 82
and add_files_to_xcode.py line 38, without its trailing newline. -/
def buildRefLineCore (bid fid name : Str) : Str :=
  str "\t\t" ++ bid ++ str " /* " ++ name ++
    str " in Sources */ = \x7bisa = PBXBuildFile; fileRef = " ++ fid ++
    str " /* " ++ name ++ str " */; \x7d;"

/-- The build-file line with its trailing newline. -/
def buildRefLine (bid fid name : Str) : Str := buildRefLineCore bid fid name ++ str "\n"

/-- Backtracking step for the group-insertion regexes
`HEADER[^}]+children = \([^)]+` (and the `files = (` and `[^)]*` variants):
given the text after the header, try run lengths `j` for `[^}]+` from the
greedy maximum downward, requiring the literal `mid` right after the run and
then a (non-empty, when `plus2`) run of non-`)` characters.  Returns the
total length matched after the header. -/
def tryJ (mid : Str) (plus2 : Bool) (rest : Str) : Nat → Option Nat
  | 0 => none
  | j + 1 =>
    if List.isPrefixOf mid (List.drop (j + 1) rest) then
      let after := List.drop (j + 1 + mid.length) rest
      let run2 := after.takeWhile (fun c => c ≠ ')')
      if plus2 && run2.isEmpty then tryJ mid plus2 rest j
      else some (j + 1 + mid.length + run2.length)
    else tryJ mid plus2 rest j

/-- Match `header ++ [^}]+ ++ mid ++ [^)]+` (or `[^)]*` when `plus2 = false`)
at the head of `s`, with the greedy-with-backtracking semantics of the Python
regexes at sync_xcode_project.py lines 91-118, add_files_to_xcode.py lines
47-64 and rebuild_xcode_project.py lines 114-137.  Returns the length of the
whole match. -/
def matchGroupAt (header mid : Str) (plus2 : Bool) (s : Str) : Option Nat :=
  if List.isPrefixOf header s ∧ header ≠ [] then
    let rest := List.drop header.length s
    let maxRun := (rest.takeWhile (fun c => c ≠ '\x7d')).length
    match tryJ mid plus2 rest maxRun with
    | some n => some (header.length + n)
    | none => none
  else none

/-- `re.sub` for the group patterns: each match is replaced by itself followed
by the insertion text (the replacement templates are `\1` plus new list
entries), scanning left to right and resuming after each match. -/
def groupSubAll : Nat → Str → Str → Bool → Str → Str → Str
  | 0, _, _, _, _, s => s
  | _ + 1, _, _, _, _, [] => []
  | fuel + 1, header, mid, plus2, ins, c :: t =>
    match matchGroupAt header mid plus2 (c :: t) with
    | some n =>
      List.take n (c :: t) ++ ins ++ groupSubAll fuel header mid plus2 ins (List.drop n (c :: t))
    | none => c :: groupSubAll fuel header mid plus2 ins t

/-- The hardcoded Managers group header literal. -/
def managersHeader : Str := str "B71234591234567812345678 /* Managers */ = \x7b"

/-- The hardcoded Views group header literal. -/
def viewsHeader : Str := str "B71234571234567812345678 /* Views */ = \x7b"

/-- The hardcoded Models group header literal. -/
def modelsHeader : Str := str "B71234581234567812345678 /* Models */ = \x7b"

/-- The hardcoded root TouchGrass group header literal. -/
def rootHeader : Str := str "B71234561234567812345678 /* TouchGrass */ = \x7b"

/-- The hardcoded Sources build-phase header literal. -/
def sourcesHeader : Str := str "B71234551234567812345678 /* Sources */ = \x7b"

/-- The literal `children = (` inside the group patterns. -/
def childrenMid : Str := str "children = ("

/-- The literal `files = (` inside the Sources pattern. -/
def filesMid : Str := str "files = ("

/-- A group-children entry line for a file reference, without leading newline. -/
def childLine (fid name : Str) : Str :=
  str "\t\t\t\t" ++ fid ++ str " /* " ++ name ++ str " */,"

/-- A Sources build-phase entry line for a build file, without leading newline. -/
def sourceLine (bid name : Str) : Str :=
  str "\t\t\t\t" ++ bid ++ str " /* " ++ name ++ str " in Sources */,"

/-- Group insertion with the `[^)]+` (plus) variant used by sync and add. -/
def groupSub (header ins c : Str) : Str :=
  groupSubAll c.length header childrenMid true ins c

/-- Sources-phase insertion with the `[^)]+` (plus) variant. -/
def sourcesSub (ins c : Str) : Str :=
  groupSubAll c.length sourcesHeader filesMid true ins c

/-- One iteration of the `for name, path in files_to_add` loop of
`add_missing_files` (sync_xcode_project.py lines 68-118): insert the file
reference and build file before their section end sentinels, insert into the
group matched by the path's directory prefix (root group otherwise), then
into the Sources build phase. -/
def addOneFile (c : Str) (name path fid bid : Str) : Str :=
  let c1 := replaceAll endFileRefSec (fileRefLine fid name path ++ endFileRefSec) c
  let c2 := replaceAll endBuildFileSec (buildRefLine bid fid name ++ endBuildFileSec) c1
  let c3 :=
    if containsSub (str "Managers/") path then
      groupSub managersHeader (str "\n" ++ childLine fid name) c2
    else if containsSub (str "Views/") path then
      groupSub viewsHeader (str "\n" ++ childLine fid name) c2
    else if containsSub (str "Models/") path then
      groupSub modelsHeader (str "\n" ++ childLine fid name) c2
    else
      groupSub rootHeader (str "\n" ++ childLine fid name) c2
  sourcesSub (str "\n" ++ sourceLine bid name) c3

/-- The whole addition loop, consuming two identifier draws per added file. -/
def addLoop : Str → List (Str × Str) → List Str → Str
  | c, [], _ => c
  | c, (name, path) :: rest, ids =>
    addLoop (addOneFile c name path (ids.getD 0 []) (ids.getD 1 [])) rest (List.drop 2 ids)

/-- Model of `add_missing_files` (sync_xcode_project.py lines 55-120).
`ids` is the stream of `generate_uuid()` results consumed by the loop. -/
def add_missing_files (c : Str) (fs : List (Str × Str)) (ids : List Str) : Str × Nat :=
  let toAdd := files_to_add c fs
  if toAdd.isEmpty then (c, 0) else (addLoop c toAdd ids, toAdd.length)

/-- The manifest path used by every script. -/
def projPath : Str := str "TouchGrass.xcodeproj/project.pbxproj"

/-- A file-system event performed by a script run. -/
inductive Ev where
  | readF : Str → Ev
  | writeF : Str → Str → Ev
deriving DecidableEq

/-- Model of the pure part of sync's `main` (sync_xcode_project.py lines
122-151): remove stale references, then add new files; returns the final
content with the removed and added counts. -/
def sync_main (c : Str) (fs : List (Str × Str)) (ids : List Str) : Str × Nat × Nat :=
  let r := remove_missing_files c fs
  let a := add_missing_files r.1 fs ids
  (a.1, r.2, a.2)

/-- The file events of sync's `main`: one read, then a write of the new
content only when some file was removed or added (lines 146-148). -/
def sync_trace (c : Str) (fs : List (Str × Str)) (ids : List Str) : List Ev :=
  let r := sync_main c fs ids
  Ev.readF projPath :: (if r.2.1 > 0 ∨ r.2.2 > 0 then [Ev.writeF projPath r.1] else [])

/-!
## add_files_to_xcode.py
-/

/-- Model of `generate_id` (add_files_to_xcode.py lines 8-10):
`uuid.uuid4().hex[:24].upper()`, applied to the hex form of the draw. -/
def generate_id (hex : Str) : Str := (List.take 24 hex).map Char.toUpper

/-- Python `os.path.basename`: the part after the last slash. -/
def basename (p : Str) : Str := (p.reverse.takeWhile (fun c => c ≠ '/')).reverse

/-- Model of `add_file_to_project` (add_files_to_xcode.py lines 12-70).
Returns `none` when the name is already present (no write happens), else
`some` of the content written back.  Note there is no root-group fallback:
a path outside the three known directory prefixes is inserted into no
group's children list. -/
def add_file_to_project (c : Str) (path : Str) (ids : List Str) : Option Str :=
  let name := basename path
  if containsSub (str "/* " ++ name ++ str " */") c then none
  else
    let fid := ids.getD 0 []
    let bid := ids.getD 1 []
    let c1 := replaceAll endFileRefSec (fileRefLine fid name path ++ endFileRefSec) c
    let c2 := replaceAll endBuildFileSec (buildRefLine bid fid name ++ endBuildFileSec) c1
    let c3 :=
      if containsSub (str "Managers/") path then
        groupSub managersHeader (str "\n" ++ childLine fid name) c2
      else if containsSub (str "Views/") path then
        groupSub viewsHeader (str "\n" ++ childLine fid name) c2
      else if containsSub (str "Models/") path then
        groupSub modelsHeader (str "\n" ++ childLine fid name) c2
      else c2
    some (sourcesSub (str "\n" ++ sourceLine bid name) c3)

/-- The file events of one `add_file_to_project` call: the write is skipped
exactly when the file is already present. -/
def add_trace (c : Str) (path : Str) (ids : List Str) : List Ev :=
  match add_file_to_project c path ids with
  | none => [Ev.readF projPath]
  | some c2 => [Ev.readF projPath, Ev.writeF projPath c2]

/-!
## remove_from_xcode.py
-/

/-- The line filter of `remove_file_from_project` (remove_from_xcode.py lines
13-33), with the `skip_next` flag threaded through: a line containing the
name is dropped (and opens continuation skipping when it has `\x7b` but no
`\x7d`); while skipping, lines are dropped until one contains `\x7d`; other
lines are kept.  Also returns `removed_count`. -/
def remove_lines : List Str → Str → Bool → List Str × Nat
  | [], _, _ => ([], 0)
  | l :: rest, name, skipNext =>
    if containsSub name l then
      let s2 := if containsSub (str "\x7b") l && ! containsSub (str "\x7d") l then true else skipNext
      let r := remove_lines rest name s2
      (r.1, r.2 + 1)
    else if skipNext then
      let s2 := if containsSub (str "\x7d") l then false else true
      remove_lines rest name s2
    else
      let r := remove_lines rest name false
      (l :: r.1, r.2)

/-- Model of `remove_file_from_project` on the file's lines. -/
def remove_file_from_project (lines : List Str) (name : Str) : List Str × Nat :=
  remove_lines lines name false

/-- One step of the `for file_name in files_to_remove` loop (remove_from_xcode.py
lines 57-58): the filtered lines are written back only when something was
removed; otherwise the file is untouched. -/
def remove_step (lines : List Str) (name : Str) : List Str :=
  let r := remove_file_from_project lines name
  if r.2 > 0 then r.1 else lines

/-- The whole batch loop: every name is processed, regardless of whether
earlier names were found. -/
def remove_batch : List Str → List Str → List Str
  | lines, [] => lines
  | lines, n :: rest => remove_batch (remove_step lines n) rest

/-!
## clean_xcode_project.py

`clean_project_file` iterates `re.finditer` over the PBXFileReference and
PBXBuildFile declarations of the originally read content (the iteration is
over the text as first read; the `content.replace` calls inside the loop do
not affect it).  We embed the two loops over the lists of matched declaration
entries, in document order.  A declaration entry records the matched
identifier, display name and the remaining matched text, so that two entries
are equal exactly when their full declaration lines are equal.
-/

/-- A matched PBXFileReference declaration (clean_xcode_project.py line 18):
identifier, display name, and the rest of the matched line, which together
determine the full matched text `full_line`. -/
structure FileRefEntry where
  refId : Str
  name : Str
  rest : Str
deriving DecidableEq

/-- A matched PBXBuildFile declaration (clean_xcode_project.py line 32):
identifier, display name, referenced file identifier, and the rest of the
matched line. -/
structure BuildRefEntry where
  buildId : Str
  name : Str
  fileRef : Str
  rest : Str
deriving DecidableEq

/-- The later-encountered duplicates of the `seen_file_refs` /
`seen_build_refs` loops (clean_xcode_project.py lines 17-44): an entry whose
display name was already seen is a duplicate and its full line is removed
from the content by `content.replace(full_line + '\n', '')`. -/
def laterDups {α : Type} (key : α → Str) (seen : List Str) : List α → List α
  | [] => []
  | e :: rest =>
    if seen.contains (key e) then e :: laterDups key seen rest
    else laterDups key (key e :: seen) rest

/-- The declarations surviving the duplicate-removal loop: `content.replace`
deletes every copy of a later-duplicate's full line, so an entry survives
exactly when it equals no later-encountered duplicate. -/
def cleanDups {α : Type} [DecidableEq α] (key : α → Str) (es : List α) : List α :=
  es.filter (fun e => ! (laterDups key [] es).contains e)

/-- The PBXFileReference declarations left by the loop at
clean_xcode_project.py lines 17-30. -/
def clean_file_refs (es : List FileRefEntry) : List FileRefEntry :=
  cleanDups (fun e => e.name) es

/-- The PBXBuildFile declarations left by the loop at
clean_xcode_project.py lines 31-44. -/
def clean_build_refs (es : List BuildRefEntry) : List BuildRefEntry :=
  cleanDups (fun e => e.name) es

/-- Uppercase-hex test for the identifier class `[A-F0-9]`. -/
def isHexUp (c : Char) : Bool := c.isDigit || ('A' ≤ c && c ≤ 'F')

/-- Model of `re.search(r'([A-F0-9]{24})', line)` (clean_xcode_project.py
lines 59 and 87): the first window of 24 consecutive identifier characters
in the line, if any. -/
def extract_id : Str → Option Str
  | [] => none
  | c :: t =>
    let w := List.take 24 (c :: t)
    if w.length = 24 && w.all isHexUp then some w else extract_id t

/-- The per-block deduplication of group-children and Sources-files lines
(clean_xcode_project.py lines 52-68 and 80-96, the two loops are identical):
a line whose first embedded identifier was already seen in this block is
dropped; all other lines are kept verbatim. -/
def dedup_id_lines (seen : List Str) : List Str → List Str
  | [] => []
  | l :: rest =>
    match extract_id l with
    | some i =>
      if seen.contains i then dedup_id_lines seen rest
      else l :: dedup_id_lines (i :: seen) rest
    | none => l :: dedup_id_lines seen rest

/-!
## rebuild_xcode_project.py
-/

/-- The `skip_files` exclusion set (rebuild_xcode_project.py line 21). -/
def skipFilesRB : List Str := [str "GrassIconPreview.swift", str "generate_icon.swift"]

/-- Code-point comparison of text, Python string `<`. -/
def strLt : Str → Str → Bool
  | [], [] => false
  | [], _ :: _ => true
  | _ :: _, [] => false
  | a :: x, b :: y => if a = b then strLt x y else decide (a.toNat < b.toNat)

/-- Python tuple comparison `(name1, path1) <= (name2, path2)`. -/
def pairLe (p q : Str × Str) : Bool :=
  strLt p.1 q.1 || (p.1 = q.1 && (strLt p.2 q.2 || p.2 = q.2))

/-- Ordered insertion for the sort below. -/
def ordIns (p : Str × Str) : List (Str × Str) → List (Str × Str)
  | [] => [p]
  | q :: t => if pairLe p q then p :: q :: t else q :: ordIns p t

/-- Python `sorted` on (name, path) pairs. -/
def sortPairs (l : List (Str × Str)) : List (Str × Str) :=
  l.foldr ordIns []

/-- Model of `find_all_swift_files` (rebuild_xcode_project.py lines 16-36):
the directory walk is an input, the skip filter and the final sort are
applied here. -/
def find_all_swift_files (scan : List (Str × Str)) : List (Str × Str) :=
  sortPairs (scan.filter (fun p => ! skipFilesRB.contains p.1))

/-- A `file_data` record: name, path, file-reference id, build-file id. -/
abbrev FileData := Str × Str × Str × Str

/-- Dict insertion for `file_data[name] = {...}` (rebuild_xcode_project.py
lines 45-51): an existing name keeps its position but takes the new record. -/
def fdUpsert (l : List FileData) (e : FileData) : List FileData :=
  match l with
  | [] => [e]
  | f :: t => if f.1 = e.1 then e :: t else f :: fdUpsert t e

/-- The `file_data` loop, consuming two `generate_uuid()` draws per file in
order (including files that later get overwritten in the dict). -/
def fileDataLoop : List FileData → List (Str × Str) → List Str → List FileData
  | acc, [], _ => acc
  | acc, (n, p) :: rest, ids =>
    fileDataLoop (fdUpsert acc (n, p, ids.getD 0 [], ids.getD 1 [])) rest (List.drop 2 ids)

/-- The line filter at rebuild_xcode_project.py lines 59-71: drop every line
that contains `.swift` and any of the scanned file names. -/
def rb_filter_lines (c : Str) (files : List (Str × Str)) : Str :=
  joinNL ((splitNL c).filter
    (fun l => ! (containsSub (str ".swift") l && files.any (fun p => containsSub p.1 l))))

/-- Group insertion with the `[^)]*` (star) variant used by rebuild. -/
def groupSubStar (header ins c : Str) : Str :=
  groupSubAll c.length header childrenMid false ins c

/-- Sources-phase insertion with the `[^)]*` (star) variant used by rebuild. -/
def sourcesSubStar (ins c : Str) : Str :=
  groupSubAll c.length sourcesHeader filesMid false ins c

/-- Conditional group insertion `if refs: content = re.sub(...)`
(rebuild_xcode_project.py lines 113-128). -/
def rbGroupIns (header : Str) (lines : List Str) (c : Str) : Str :=
  if lines.isEmpty then c else groupSubStar header (str "\n" ++ joinNL lines) c

/-- Model of `create_project_structure` (rebuild_xcode_project.py lines
38-139): clear the lines of all scanned Swift files, then insert freshly
generated declarations, group children and Sources entries. -/
def create_project_structure (c : Str) (scan : List (Str × Str)) (ids : List Str) : Str :=
  let files := find_all_swift_files scan
  let fd := fileDataLoop [] files ids
  let c1 := rb_filter_lines c files
  let frs := joinNL (fd.map (fun e => fileRefLineCore e.2.2.1 e.1 e.2.1))
  let c2 := replaceAll endFileRefSec (frs ++ str "\n" ++ endFileRefSec) c1
  let brs := joinNL (fd.map (fun e => buildRefLineCore e.2.2.2 e.2.2.1 e.1))
  let c3 := replaceAll endBuildFileSec (brs ++ str "\n" ++ endBuildFileSec) c2
  let mans := (fd.filter (fun e => containsSub (str "Managers/") e.2.1)).map
    (fun e => childLine e.2.2.1 e.1)
  let views := (fd.filter (fun e => containsSub (str "Views/") e.2.1)).map
    (fun e => childLine e.2.2.1 e.1)
  let models := (fd.filter (fun e => containsSub (str "Models/") e.2.1)).map
    (fun e => childLine e.2.2.1 e.1)
  let c4 := rbGroupIns managersHeader mans c3
  let c5 := rbGroupIns viewsHeader views c4
  let c6 := rbGroupIns modelsHeader models c5
  let srcs := fd.map (fun e => sourceLine e.2.2.2 e.1)
  sourcesSubStar (str "\n" ++ joinNL srcs) c6

/-- The backup path `project_file + '.backup'` (rebuild_xcode_project.py line 150). -/
def backupPath : Str := projPath ++ str ".backup"

/-- The file events of rebuild's `main` (rebuild_xcode_project.py lines
141-161): read the manifest, write its unmodified content to the backup
path, read it again inside `create_project_structure`, then write the new
content to the manifest path. -/
def rebuild_trace (c : Str) (scan : List (Str × Str)) (ids : List Str) : List Ev :=
  [Ev.readF projPath, Ev.writeF backupPath c, Ev.readF projPath,
    Ev.writeF projPath (create_project_structure c scan ids)]

/-- The path an event touches. -/
def evPath : Ev → Str
  | Ev.readF p => p
  | Ev.writeF p _ => p

/-!
## Concrete inputs used by the claim theorems
-/

/-- Duplicate-named file reference, first in document order. -/
def c1frA : FileRefEntry := ⟨str "AAAAAAAAAAAAAAAAAAAAAAAA", str "D.swift", str "p1"⟩

/-- Duplicate-named file reference, second in document order. -/
def c1frB : FileRefEntry := ⟨str "BBBBBBBBBBBBBBBBBBBBBBBB", str "D.swift", str "p2"⟩

/-- First build entry for D.swift; its fileRef points at the second
(deleted) duplicate file reference. -/
def c1bfX : BuildRefEntry :=
  ⟨str "CCCCCCCCCCCCCCCCCCCCCCCC", str "D.swift", str "BBBBBBBBBBBBBBBBBBBBBBBB", str "r1"⟩

/-- Second build entry for D.swift, pointing at the first file reference. -/
def c1bfY : BuildRefEntry :=
  ⟨str "DDDDDDDDDDDDDDDDDDDDDDDD", str "D.swift", str "AAAAAAAAAAAAAAAAAAAAAAAA", str "r2"⟩

/-- Well-paired file reference for the C1 witness. -/
def c1wfr : FileRefEntry := ⟨str "EEEEEEEEEEEEEEEEEEEEEEEE", str "W.swift", str "p"⟩

/-- Well-paired build entry for the C1 witness. -/
def c1wbf : BuildRefEntry :=
  ⟨str "FFFFFFFFFFFFFFFFFFFFFFFF", str "W.swift", str "EEEEEEEEEEEEEEEEEEEEEEEE", str "r"⟩

/-- Minimal manifest with both section sentinels and nothing tracked. -/
def c2start : Str :=
  str "// top\n/* Begin PBXBuildFile section */\n/* End PBXBuildFile section */\n/* Begin PBXFileReference section */\n/* End PBXFileReference section */\n"

/-- One scanned file whose name the tracking regex cannot recognize. -/
def c2fs : List (Str × Str) := [(str "A-B.swift", str "A-B.swift")]

/-- The identifier draws consumed by the first sync run. -/
def c2ids1 : List Str := [str "AAAAAAAAAAAAAAAAAAAAAAA1", str "AAAAAAAAAAAAAAAAAAAAAAA2"]

/-- The identifier draws consumed by the second sync run. -/
def c2ids2 : List Str := [str "AAAAAAAAAAAAAAAAAAAAAAA3", str "AAAAAAAAAAAAAAAAAAAAAAA4"]

/-- A manifest already in sync with the witness scan below. -/
def c2w : Str := str "q /* A.swift */ q"

/-- The witness scan: exactly the tracked file. -/
def c2wfs : List (Str × Str) := [(str "A.swift", str "A.swift")]

/-- Minimal sentinel-only manifest for the C3 counterexample. -/
def c3start : Str :=
  str "/* Begin PBXBuildFile section */\n/* End PBXBuildFile section */\n/* Begin PBXFileReference section */\n/* End PBXFileReference section */\n"

/-- A scan returning only the hardcoded skipped preview file. -/
def c3fs : List (Str × Str) :=
  [(str "GrassIconPreview.swift", str "Views/GrassIconPreview.swift")]

/-- Manifest tracking A.swift and B.swift with declarations in both sections. -/
def c3ab : Str :=
  str "/* Begin PBXBuildFile section */\n\t\tAAAAAAAAAAAAAAAAAAAAAAA1 /* A.swift in Sources */ = \x7bisa = PBXBuildFile; fileRef = AAAAAAAAAAAAAAAAAAAAAAA2 /* A.swift */; \x7d;\n\t\tBBBBBBBBBBBBBBBBBBBBBBB1 /* B.swift in Sources */ = \x7bisa = PBXBuildFile; fileRef = BBBBBBBBBBBBBBBBBBBBBBB2 /* B.swift */; \x7d;\n/* End PBXBuildFile section */\n/* Begin PBXFileReference section */\n\t\tAAAAAAAAAAAAAAAAAAAAAAA2 /* A.swift */ = \x7bisa = PBXFileReference; path = \"A.swift\"; \x7d;\n\t\tBBBBBBBBBBBBBBBBBBBBBBB2 /* B.swift */ = \x7bisa = PBXFileReference; path = \"B.swift\"; \x7d;\n/* End PBXFileReference section */\n"

/-- The scenario scan: only A.swift remains on disk. -/
def c3afs : List (Str × Str) := [(str "A.swift", str "A.swift")]

/-- No identifiers are needed: the scenario only removes. -/
def c3ids : List Str := []

/-- Duplicate-named file reference kept by clean. -/
def c4frA : FileRefEntry := ⟨str "AAAAAAAAAAAAAAAAAAAAAAAA", str "D.swift", str "pA"⟩

/-- Duplicate-named file reference deleted by clean. -/
def c4frB : FileRefEntry := ⟨str "BBBBBBBBBBBBBBBBBBBBBBBB", str "D.swift", str "pB"⟩

/-- Group-children line pointing at the kept duplicate. -/
def c4lineA : Str := str "\t\t\t\tAAAAAAAAAAAAAAAAAAAAAAAA /* D.swift */,"

/-- Group-children line pointing at the deleted duplicate. -/
def c4lineB : Str := str "\t\t\t\tBBBBBBBBBBBBBBBBBBBBBBBB /* D.swift */,"

/-- A canonical-format uuid4 draw. -/
def c5draw : Str := str "abcdef01-2345-6789-abcd-ef0123456789"

/-- The 24-character identifier the draw truncates to. -/
def c5existing : Str := str "ABCDEF0123456789ABCDEF01"

/-- A manifest already containing that identifier. -/
def c5mani : Str :=
  str "\t\tABCDEF0123456789ABCDEF01 /* A.swift */ = \x7bisa = PBXFileReference; \x7d;"

/-- Manifest with one stale tracked file, so that sync mutates and writes. -/
def c6c : Str := str "/* B.swift */\nrest\n"

/-- Input manifest for the C6 rebuild witness. -/
def c6wc : Str := str "w\n"

/-- Sentinel-free manifest for the C7 counterexample. -/
def c7c : Str := str "x\ny\n"

/-- Identifier draws for the C7 counterexample. -/
def c7ids : List Str := [str "1111111111111111111111AA", str "1111111111111111111111AB"]

/-- Manifest with both sentinels, a root TouchGrass group and a Sources
phase, as consumed by the C9 scenario. -/
def c9base : Str :=
  str "/* Begin PBXFileReference section */\n/* End PBXFileReference section */\n/* Begin PBXBuildFile section */\n/* End PBXBuildFile section */\n\t\tB71234561234567812345678 /* TouchGrass */ = \x7b\n\t\t\tisa = PBXGroup;\n\t\t\tchildren = (\n\t\t\t\tB71234511234567812345671 /* Old.txt */,\n\t\t\t);\n\t\t\x7d;\n\t\tB71234551234567812345678 /* Sources */ = \x7b\n\t\t\tisa = PBXSourcesBuildPhase;\n\t\t\tfiles = (\n\t\t\t);\n\t\t\x7d;\n"

/-- A scanned file whose path matches none of the category prefixes. -/
def c9fs : List (Str × Str) := [(str "X.swift", str "Assets/X.swift")]

/-- File-reference identifier draw for C9. -/
def c9fid : Str := str "9999999999999999999999A1"

/-- Build-file identifier draw for C9. -/
def c9bid : Str := str "9999999999999999999999A2"

/-- The identifier draws consumed by the C9 runs. -/
def c9ids : List Str := [c9fid, c9bid]

/-- Lines of a project file whose only tracked file is TouchGrassApp.swift,
hit by removing the shorter name App.swift: a file reference, a build entry
opening a multi-line block, its continuation and the closing line. -/
def c10lines : List Str :=
  [str "\t\tIDA0000000000000000000001 /* TouchGrassApp.swift */ = \x7bisa = PBXFileReference; \x7d;",
   str "\t\tIDB0000000000000000000002 /* TouchGrassApp.swift in Sources */ = \x7b",
   str "\t\t\tfileRef = IDA0000000000000000000001;",
   str "\t\t\x7d;"]

/-- Content for the sync-side overmatch example. -/
def c10sync : Str := str "x TouchGrassApp.swift y\nkeep me"

/-!
## General lemmas about the text primitives
-/

/-- Boolean membership agrees with membership. -/
theorem contains_iff {α : Type} [BEq α] [LawfulBEq α] (l : List α) (a : α) :
    l.contains a = true ↔ a ∈ l := List.elem_iff

/-- A pattern that occurs nowhere leaves the fuelled scan a no-op. -/
theorem replaceAllGo_of_not_contains (pat rep : Str) :
    ∀ (fuel : Nat) (c : Str), containsSub pat c = false →
      replaceAllGo pat rep fuel c = c := by
  intro fuel
  induction fuel with
  | zero => intro c _; rfl
  | succ n ih =>
    intro c h
    cases c with
    | nil => rfl
    | cons a t =>
      simp only [containsSub, Bool.or_eq_false_iff] at h
      rw [replaceAllGo, if_neg]
      · rw [ih t h.2]
      · intro hc
        rw [h.1] at hc
        simp at hc

/-- A pattern that occurs nowhere leaves `replaceAll` a no-op. -/
theorem replaceAll_of_not_contains (pat rep : Str) (c : Str)
    (h : containsSub pat c = false) : replaceAll pat rep c = c :=
  replaceAllGo_of_not_contains pat rep c.length c h

/-- Splitting on newlines never yields the empty list. -/
theorem splitNL_ne_nil (s : Str) : splitNL s ≠ [] := by
  cases s with
  | nil => simp [splitNL]
  | cons a t =>
    simp only [splitNL]
    split
    · simp
    · split <;> simp

/-- Pieces produced by `splitNL` contain no newline. -/
theorem no_nl_of_mem_splitNL : ∀ (s : Str) (l : Str), l ∈ splitNL s → '\n' ∉ l := by
  intro s
  induction s with
  | nil =>
    intro l hl
    simp only [splitNL, List.mem_singleton] at hl
    subst hl; simp
  | cons a t ih =>
    intro l hl
    by_cases ha : a = '\n'
    · subst ha
      simp only [splitNL, if_pos rfl] at hl
      rcases List.mem_cons.mp hl with h | h
      · subst h; simp
      · exact ih l h
    · simp only [splitNL, if_neg ha] at hl
      rcases hsp : splitNL t with _ | ⟨x, xs⟩
      · exact absurd hsp (splitNL_ne_nil t)
      · rw [hsp] at hl
        rcases List.mem_cons.mp hl with h | h
        · subst h
          intro hm
          rcases List.mem_cons.mp hm with h' | h'
          · exact ha h'.symm
          · exact ih x (by rw [hsp]; exact List.mem_cons_self x xs) h'
        · exact ih l (by rw [hsp]; exact List.mem_cons_of_mem x h)

/-- Newline-free text splits into itself. -/
theorem splitNL_no_nl : ∀ a : Str, '\n' ∉ a → splitNL a = [a] := by
  intro a
  induction a with
  | nil => intro _; rfl
  | cons c t ih =>
    intro h
    have hc : ¬ c = '\n' := fun e => h (by rw [e]; exact List.mem_cons_self _ _)
    simp only [splitNL, if_neg hc]
    rw [ih (fun hm => h (List.mem_cons_of_mem c hm))]

/-- Splitting after a newline-free piece peels it off. -/
theorem splitNL_append_nl : ∀ (a rest : Str), '\n' ∉ a →
    splitNL (a ++ '\n' :: rest) = a :: splitNL rest := by
  intro a
  induction a with
  | nil => intro rest _; simp [splitNL]
  | cons c t ih =>
    intro rest h
    have hc : ¬ c = '\n' := fun e => h (by rw [e]; exact List.mem_cons_self _ _)
    simp only [List.cons_append, splitNL, if_neg hc]
    rw [show splitNL (t.append ('\n' :: rest)) = t :: splitNL rest from
      ih rest (fun hm => h (List.mem_cons_of_mem c hm))]

/-- Joining newline-free pieces and splitting again is the identity. -/
theorem splitNL_joinNL : ∀ ls : List Str, ls ≠ [] → (∀ l ∈ ls, '\n' ∉ l) →
    splitNL (joinNL ls) = ls := by
  intro ls
  induction ls with
  | nil => intro h; exact absurd rfl h
  | cons l t ih =>
    intro _ h
    cases t with
    | nil =>
      simp only [joinNL]
      exact splitNL_no_nl l (h l (List.mem_cons_self _ _))
    | cons l2 t2 =>
      simp only [joinNL]
      rw [splitNL_append_nl l _ (h l (List.mem_cons_self _ _))]
      rw [ih (by simp) (fun x hx => h x (List.mem_cons_of_mem l hx))]

/-- Elements surviving first-seen deduplication come from the input. -/
theorem mem_of_mem_distinctFrom : ∀ (l seen : List Str) (x : Str),
    x ∈ distinctFrom seen l → x ∈ l := by
  intro l
  induction l with
  | nil => intro seen x h; simp [distinctFrom] at h
  | cons a t ih =>
    intro seen x h
    simp only [distinctFrom] at h
    split at h
    · exact List.mem_cons_of_mem a (ih seen x h)
    · rcases List.mem_cons.mp h with h' | h'
      · exact h' ▸ List.mem_cons_self a t
      · exact List.mem_cons_of_mem a (ih _ x h')

/-- An unseen input element survives first-seen deduplication. -/
theorem mem_distinctFrom : ∀ (l seen : List Str) (x : Str),
    x ∈ l → ¬ x ∈ seen → x ∈ distinctFrom seen l := by
  intro l
  induction l with
  | nil => intro seen x h; simp at h
  | cons a t ih =>
    intro seen x hx hseen
    simp only [distinctFrom]
    split
    · rename_i hcon
      rcases List.mem_cons.mp hx with h' | h'
      · exact absurd (by rw [h']; exact (contains_iff seen a).mp hcon) hseen
      · exact ih seen x h' hseen
    · rcases List.mem_cons.mp hx with h' | h'
      · exact h' ▸ List.mem_cons_self a _
      · by_cases hxa : x = a
        · exact hxa ▸ List.mem_cons_self a _
        · refine List.mem_cons_of_mem a (ih _ x h' ?_)
          intro hm
          rcases List.mem_cons.mp hm with h2 | h2
          · exact hxa h2
          · exact hseen h2

/-- A pair surviving dict insertion either has the inserted key or was there. -/
theorem upsert_fst : ∀ (l : List (Str × Str)) (k v : Str) (x : Str × Str),
    x ∈ upsert l k v → x.1 = k ∨ x ∈ l := by
  intro l
  induction l with
  | nil =>
    intro k v x h
    simp only [upsert, List.mem_singleton] at h
    left; rw [h]
  | cons p t ih =>
    intro k v x h
    simp only [upsert] at h
    split at h
    · rcases List.mem_cons.mp h with h' | h'
      · left; rw [h']
      · right; exact List.mem_cons_of_mem p h'
    · rcases List.mem_cons.mp h with h' | h'
      · right; rw [h']; exact List.mem_cons_self p t
      · rcases ih k v x h' with h2 | h2
        · left; exact h2
        · right; exact List.mem_cons_of_mem p h2

/-- Keys of the dict fold come from the accumulator or the input names. -/
theorem foldl_upsert_fst : ∀ (fs acc : List (Str × Str)) (x : Str × Str),
    x ∈ fs.foldl (fun acc p => upsert acc p.1 p.2) acc →
    x ∈ acc ∨ x.1 ∈ fs.map Prod.fst := by
  intro fs
  induction fs with
  | nil => intro acc x h; left; simpa using h
  | cons p t ih =>
    intro acc x h
    simp only [List.foldl_cons] at h
    rcases ih (upsert acc p.1 p.2) x h with h2 | h2
    · rcases upsert_fst acc p.1 p.2 x h2 with h3 | h3
      · right; simp [h3]
      · left; exact h3
    · right
      simp only [List.map_cons]
      exact List.mem_cons_of_mem _ h2

/-- Keys of `filesystem_dict` come from the scanned names. -/
theorem filesystem_dict_fst (fs : List (Str × Str)) (x : Str × Str)
    (h : x ∈ filesystem_dict fs) : x.1 ∈ fs.map Prod.fst := by
  rcases foldl_upsert_fst fs [] x h with h2 | h2
  · simp at h2
  · exact h2

/-!
## Lemmas about remove_from_xcode.py
-/

/-- No kept line contains the removed name. -/
theorem remove_lines_not_contains : ∀ (lines : List Str) (name : Str) (sk : Bool) (l : Str),
    l ∈ (remove_lines lines name sk).1 → containsSub name l = false := by
  intro lines
  induction lines with
  | nil => intro name sk l h; simp [remove_lines] at h
  | cons a t ih =>
    intro name sk l h
    simp only [remove_lines] at h
    split at h
    · exact ih name _ l h
    · split at h
      · exact ih name _ l h
      · rcases List.mem_cons.mp h with h' | h'
        · subst h'
          cases hb : containsSub name l with
          | false => rfl
          | true => simp_all
        · exact ih name false l h'

/-- Kept lines come from the input. -/
theorem remove_lines_subset : ∀ (lines : List Str) (name : Str) (sk : Bool) (l : Str),
    l ∈ (remove_lines lines name sk).1 → l ∈ lines := by
  intro lines
  induction lines with
  | nil => intro name sk l h; simp [remove_lines] at h
  | cons a t ih =>
    intro name sk l h
    simp only [remove_lines] at h
    split at h
    · exact List.mem_cons_of_mem a (ih name _ l h)
    · split at h
      · exact List.mem_cons_of_mem a (ih name _ l h)
      · rcases List.mem_cons.mp h with h' | h'
        · exact h' ▸ List.mem_cons_self a t
        · exact List.mem_cons_of_mem a (ih name false l h')

/-- When no line contains the name, nothing is filtered and nothing counted. -/
theorem remove_lines_id : ∀ (lines : List Str) (name : Str),
    (∀ l ∈ lines, containsSub name l = false) →
    remove_lines lines name false = (lines, 0) := by
  intro lines
  induction lines with
  | nil => intro name _; rfl
  | cons a t ih =>
    intro name h
    have ha := h a (List.mem_cons_self a t)
    have ih2 := ih name (fun l hl => h l (List.mem_cons_of_mem a hl))
    simp [remove_lines, ha, ih2]

/-- A zero removal count means no line contained the name. -/
theorem remove_lines_count_zero : ∀ (lines : List Str) (name : Str) (sk : Bool),
    (remove_lines lines name sk).2 = 0 → ∀ l ∈ lines, containsSub name l = false := by
  intro lines
  induction lines with
  | nil => intro name sk _ l hl; simp at hl
  | cons a t ih =>
    intro name sk h l hl
    simp only [remove_lines] at h
    split at h
    · simp at h
    · split at h
      · rcases List.mem_cons.mp hl with h' | h'
        · subst h'
          cases hb : containsSub name l with
          | false => rfl
          | true => simp_all
        · exact ih name _ h l h'
      · rcases List.mem_cons.mp hl with h' | h'
        · subst h'
          cases hb : containsSub name l with
          | false => rfl
          | true => simp_all
        · exact ih name false (by simpa using h) l h'

/-- After one batch step no surviving line contains the processed name. -/
theorem remove_step_clears (lines : List Str) (name : Str) (l : Str)
    (h : l ∈ remove_step lines name) : containsSub name l = false := by
  simp only [remove_step, remove_file_from_project] at h
  split at h
  · exact remove_lines_not_contains lines name false l h
  · rename_i hc
    have h0 : (remove_lines lines name false).2 = 0 := by omega
    exact remove_lines_count_zero lines name false h0 l h

/-- One batch step keeps only input lines. -/
theorem remove_step_subset (lines : List Str) (name : Str) (l : Str)
    (h : l ∈ remove_step lines name) : l ∈ lines := by
  simp only [remove_step, remove_file_from_project] at h
  split at h
  · exact remove_lines_subset lines name false l h
  · exact h

/-- Batch output lines come from the input lines. -/
theorem remove_batch_subset : ∀ (names : List Str) (lines : List Str) (l : Str),
    l ∈ remove_batch lines names → l ∈ lines := by
  intro names
  induction names with
  | nil => intro lines l h; simpa [remove_batch] using h
  | cons n rest ih =>
    intro lines l h
    simp only [remove_batch] at h
    exact remove_step_subset lines n l (ih _ l h)

/-- Every processed name is absent from every batch output line. -/
theorem remove_batch_clears : ∀ (names : List Str) (lines : List Str) (n : Str),
    n ∈ names → ∀ l ∈ remove_batch lines names, containsSub n l = false := by
  intro names
  induction names with
  | nil => intro lines n h; simp at h
  | cons m rest ih =>
    intro lines n hn l hl
    simp only [remove_batch] at hl
    rcases List.mem_cons.mp hn with h' | h'
    · subst h'
      exact remove_step_clears lines n l (remove_batch_subset rest _ l hl)
    · exact ih _ n h' l hl

/-!
## Lemmas about clean_xcode_project.py
-/

/-- Later duplicates come from the scanned entries. -/
theorem mem_of_mem_laterDups {α : Type} (key : α → Str) :
    ∀ (es : List α) (seen : List Str) (x : α), x ∈ laterDups key seen es → x ∈ es := by
  intro es
  induction es with
  | nil => intro seen x h; simp [laterDups] at h
  | cons a t ih =>
    intro seen x h
    simp only [laterDups] at h
    split at h
    · rcases List.mem_cons.mp h with h' | h'
      · exact h' ▸ List.mem_cons_self a t
      · exact List.mem_cons_of_mem a (ih seen x h')
    · exact List.mem_cons_of_mem a (ih _ x h)

/-- An entry whose key was already seen is collected as a duplicate. -/
theorem mem_laterDups_seen {α : Type} (key : α → Str) :
    ∀ (es : List α) (seen : List Str) (x : α), x ∈ es → key x ∈ seen →
      x ∈ laterDups key seen es := by
  intro es
  induction es with
  | nil => intro seen x h; simp at h
  | cons a t ih =>
    intro seen x hx hseen
    simp only [laterDups]
    split
    · rcases List.mem_cons.mp hx with h' | h'
      · exact h' ▸ List.mem_cons_self _ _
      · exact List.mem_cons_of_mem a (ih seen x h' hseen)
    · rename_i hcon
      rcases List.mem_cons.mp hx with h' | h'
      · exact absurd (List.elem_iff.mpr (h' ▸ hseen)) hcon
      · exact ih _ x h' (List.mem_cons_of_mem _ hseen)

/-- The first entry carrying its key is never collected as a duplicate. -/
theorem find_not_mem_laterDups {α : Type} (key : α → Str) :
    ∀ (es : List α) (seen : List Str) (e : α),
      es.find? (fun x => decide (key x = key e)) = some e →
      ¬ key e ∈ seen → es.Nodup → e ∉ laterDups key seen es := by
  intro es
  induction es with
  | nil => intro seen e h; simp at h
  | cons a t ih =>
    intro seen e hfind hseen hnd hmem
    by_cases hk : key a = key e
    · have hd : (decide (key a = key e)) = true := decide_eq_true hk
      simp only [List.find?_cons, hd] at hfind
      have hae : a = e := by simpa using hfind
      subst hae
      simp only [laterDups] at hmem
      have hcf : seen.contains (key a) = false := by
        cases hb : seen.contains (key a) with
        | false => rfl
        | true => exact absurd ((contains_iff seen (key a)).mp hb) hseen
      rw [hcf] at hmem
      simp only [Bool.false_eq_true, if_false] at hmem
      have : a ∈ t := mem_of_mem_laterDups key t _ a hmem
      exact (List.nodup_cons.mp hnd).1 this
    · have hd : (decide (key a = key e)) = false := decide_eq_false hk
      simp only [List.find?_cons, hd] at hfind
      simp only [laterDups] at hmem
      split at hmem
      · rcases List.mem_cons.mp hmem with h' | h'
        · exact hk (by rw [h'])
        · exact ih seen e hfind hseen (List.nodup_cons.mp hnd).2 h'
      · refine ih _ e hfind ?_ (List.nodup_cons.mp hnd).2 hmem
        intro hm
        rcases List.mem_cons.mp hm with h2 | h2
        · exact hk h2.symm
        · exact hseen h2

/-- An entry that is not the first carrier of its key is a later duplicate. -/
theorem mem_laterDups_of_find_ne {α : Type} (key : α → Str) :
    ∀ (es : List α) (seen : List Str) (x y : α),
      x ∈ es → es.find? (fun z => decide (key z = key x)) = some y → y ≠ x →
      x ∈ laterDups key seen es := by
  intro es
  induction es with
  | nil => intro seen x y h; simp at h
  | cons a t ih =>
    intro seen x y hx hfind hne
    by_cases hk : key a = key x
    · have hd : (decide (key a = key x)) = true := decide_eq_true hk
      simp only [List.find?_cons, hd] at hfind
      have hay : a = y := by simpa using hfind
      have hxt : x ∈ t := by
        rcases List.mem_cons.mp hx with h' | h'
        · exact absurd (h' ▸ hay.symm) hne
        · exact h'
      simp only [laterDups]
      split
      · rename_i hcon
        exact List.mem_cons_of_mem a
          (mem_laterDups_seen key t seen x hxt (hk ▸ (contains_iff seen (key a)).mp hcon))
      · exact mem_laterDups_seen key t _ x hxt (by rw [← hk]; exact List.mem_cons_self _ _)
    · have hd : (decide (key a = key x)) = false := decide_eq_false hk
      simp only [List.find?_cons, hd] at hfind
      have hxt : x ∈ t := by
        rcases List.mem_cons.mp hx with h' | h'
        · exact absurd (by rw [h']) hk
        · exact h'
      simp only [laterDups]
      split
      · exact List.mem_cons_of_mem a (ih seen x y hxt hfind hne)
      · exact ih _ x y hxt hfind hne

/-- Surviving entries come from the input. -/
theorem mem_cleanDups_subset {α : Type} [DecidableEq α] (key : α → Str)
    (es : List α) (e : α) (h : e ∈ cleanDups key es) : e ∈ es :=
  (List.mem_filter.mp h).1

/-- A surviving entry is the first carrier of its key. -/
theorem find_of_mem_cleanDups {α : Type} [DecidableEq α] (key : α → Str)
    (es : List α) (e : α) (h : e ∈ cleanDups key es) :
    es.find? (fun x => decide (key x = key e)) = some e := by
  have hmem : e ∈ es := (List.mem_filter.mp h).1
  have hnd : ¬ e ∈ laterDups key [] es := by
    have h2 := (List.mem_filter.mp h).2
    intro hm
    rw [(contains_iff (laterDups key [] es) e).mpr hm] at h2
    simp at h2
  have hsome : (es.find? (fun x => decide (key x = key e))).isSome := by
    rw [List.find?_isSome]
    exact ⟨e, hmem, by simp⟩
  rcases Option.isSome_iff_exists.mp hsome with ⟨y, hy⟩
  by_cases hye : y = e
  · rw [hye] at hy; exact hy
  · exact absurd (mem_laterDups_of_find_ne key es [] e y hmem hy hye) hnd

/-- The first carrier of each key survives, for duplicate-free entry lists. -/
theorem mem_cleanDups_of_find {α : Type} [DecidableEq α] (key : α → Str)
    (es : List α) (e : α) (hfind : es.find? (fun x => decide (key x = key e)) = some e)
    (hnd : es.Nodup) : e ∈ cleanDups key es := by
  rw [cleanDups, List.mem_filter]
  refine ⟨List.mem_of_find?_eq_some hfind, ?_⟩
  have hnot : ¬ e ∈ laterDups key [] es :=
    find_not_mem_laterDups key es [] e hfind (by simp) hnd
  cases hb : (laterDups key [] es).contains e with
  | false => simp [hb]
  | true => exact absurd ((contains_iff (laterDups key [] es) e).mp hb) hnot

/-- At most one surviving entry per key. -/
theorem cleanDups_key_unique {α : Type} [DecidableEq α] (key : α → Str)
    (es : List α) (e1 e2 : α) (h1 : e1 ∈ cleanDups key es) (h2 : e2 ∈ cleanDups key es)
    (hk : key e1 = key e2) : e1 = e2 := by
  have f1 := find_of_mem_cleanDups key es e1 h1
  have f2 := find_of_mem_cleanDups key es e2 h2
  have hfun : (fun x => decide (key x = key e2)) = (fun x => decide (key x = key e1)) := by
    funext x; rw [hk]
  rw [hfun, f1] at f2
  exact Option.some.inj f2

/-- Kept list lines come from the block's lines. -/
theorem dedup_id_subset : ∀ (ls seen : List Str) (l : Str),
    l ∈ dedup_id_lines seen ls → l ∈ ls := by
  intro ls
  induction ls with
  | nil => intro seen l h; simp [dedup_id_lines] at h
  | cons a t ih =>
    intro seen l h
    rcases hx : extract_id a with _ | j
    · simp only [dedup_id_lines, hx] at h
      rcases List.mem_cons.mp h with h' | h'
      · exact h' ▸ List.mem_cons_self a t
      · exact List.mem_cons_of_mem a (ih seen l h')
    · simp only [dedup_id_lines, hx] at h
      by_cases hcon : seen.contains j = true
      · rw [if_pos hcon] at h
        exact List.mem_cons_of_mem a (ih seen l h)
      · rw [if_neg hcon] at h
        rcases List.mem_cons.mp h with h' | h'
        · exact h' ▸ List.mem_cons_self a t
        · exact List.mem_cons_of_mem a (ih _ l h')

/-- The identifier of a kept line was not in the seen accumulator. -/
theorem dedup_id_not_seen : ∀ (ls seen : List Str) (l i : Str),
    l ∈ dedup_id_lines seen ls → extract_id l = some i → ¬ i ∈ seen := by
  intro ls
  induction ls with
  | nil => intro seen l i h; simp [dedup_id_lines] at h
  | cons a t ih =>
    intro seen l i h hid
    rcases hx : extract_id a with _ | j
    · simp only [dedup_id_lines, hx] at h
      rcases List.mem_cons.mp h with h' | h'
      · subst h'; rw [hid] at hx; simp at hx
      · exact ih seen l i h' hid
    · simp only [dedup_id_lines, hx] at h
      by_cases hcon : seen.contains j = true
      · rw [if_pos hcon] at h
        exact ih seen l i h hid
      · rw [if_neg hcon] at h
        rcases List.mem_cons.mp h with h' | h'
        · subst h'
          rw [hid] at hx
          have hij : i = j := Option.some.inj hx
          intro hm
          exact hcon ((contains_iff seen j).mpr (hij ▸ hm))
        · intro hm
          exact ih _ l i h' hid (List.mem_cons_of_mem j hm)

/-- At most one kept line per identifier in a block. -/
theorem dedup_id_unique : ∀ (ls seen : List Str) (l1 l2 i : Str),
    l1 ∈ dedup_id_lines seen ls → l2 ∈ dedup_id_lines seen ls →
    extract_id l1 = some i → extract_id l2 = some i → l1 = l2 := by
  intro ls
  induction ls with
  | nil => intro seen l1 l2 i h; simp [dedup_id_lines] at h
  | cons a t ih =>
    intro seen l1 l2 i h1 h2 hi1 hi2
    rcases hx : extract_id a with _ | j
    · simp only [dedup_id_lines, hx] at h1 h2
      rcases List.mem_cons.mp h1 with g1 | g1 <;> rcases List.mem_cons.mp h2 with g2 | g2
      · rw [g1, g2]
      · subst g1; rw [hi1] at hx; simp at hx
      · subst g2; rw [hi2] at hx; simp at hx
      · exact ih seen l1 l2 i g1 g2 hi1 hi2
    · simp only [dedup_id_lines, hx] at h1 h2
      by_cases hcon : seen.contains j = true
      · rw [if_pos hcon] at h1 h2
        exact ih seen l1 l2 i h1 h2 hi1 hi2
      · rw [if_neg hcon] at h1 h2
        rcases List.mem_cons.mp h1 with g1 | g1 <;> rcases List.mem_cons.mp h2 with g2 | g2
        · rw [g1, g2]
        · subst g1
          rw [hi1] at hx
          have hji : j = i := (Option.some.inj hx).symm
          have hmem : i ∈ j :: seen := by rw [← hji]; exact List.mem_cons_self j seen
          exact absurd hmem (dedup_id_not_seen t _ l2 i g2 hi2)
        · subst g2
          rw [hi2] at hx
          have hji : j = i := (Option.some.inj hx).symm
          have hmem : i ∈ j :: seen := by rw [← hji]; exact List.mem_cons_self j seen
          exact absurd hmem (dedup_id_not_seen t _ l1 i g1 hi1)
        · exact ih _ l1 l2 i g1 g2 hi1 hi2

/-- Lines without an identifier are always kept. -/
theorem dedup_id_none_kept : ∀ (ls seen : List Str) (l : Str),
    l ∈ ls → extract_id l = none → l ∈ dedup_id_lines seen ls := by
  intro ls
  induction ls with
  | nil => intro seen l h; simp at h
  | cons a t ih =>
    intro seen l hl hid
    rcases List.mem_cons.mp hl with h' | h'
    · subst h'
      simp only [dedup_id_lines, hid]
      exact List.mem_cons_self l _
    · rcases hx : extract_id a with _ | j
      · simp only [dedup_id_lines, hx]
        exact List.mem_cons_of_mem a (ih seen l h' hid)
      · simp only [dedup_id_lines, hx]
        by_cases hcon : seen.contains j = true
        · rw [if_pos hcon]
          exact ih seen l h' hid
        · rw [if_neg hcon]
          exact List.mem_cons_of_mem a (ih _ l h' hid)

/-- The first line carrying an unseen identifier is kept. -/
theorem dedup_id_first_kept : ∀ (ls seen : List Str) (l i : Str),
    extract_id l = some i → ¬ i ∈ seen →
    ls.find? (fun x => decide (extract_id x = some i)) = some l →
    l ∈ dedup_id_lines seen ls := by
  intro ls
  induction ls with
  | nil => intro seen l i _ _ h; simp at h
  | cons a t ih =>
    intro seen l i hid hseen hfind
    by_cases ha : extract_id a = some i
    · have hd : (decide (extract_id a = some i)) = true := decide_eq_true ha
      simp only [List.find?_cons, hd] at hfind
      have hal : a = l := by simpa using hfind
      subst hal
      simp only [dedup_id_lines, ha]
      have hcf : seen.contains i = false := by
        cases hb : seen.contains i with
        | false => rfl
        | true => exact absurd ((contains_iff seen i).mp hb) hseen
      rw [hcf]
      simp only [Bool.false_eq_true, if_false]
      exact List.mem_cons_self a _
    · have hd : (decide (extract_id a = some i)) = false := decide_eq_false ha
      simp only [List.find?_cons, hd] at hfind
      rcases hx : extract_id a with _ | j
      · simp only [dedup_id_lines, hx]
        exact List.mem_cons_of_mem a (ih seen l i hid hseen hfind)
      · simp only [dedup_id_lines, hx]
        by_cases hcon : seen.contains j = true
        · rw [if_pos hcon]
          exact ih seen l i hid hseen hfind
        · rw [if_neg hcon]
          refine List.mem_cons_of_mem a (ih _ l i hid ?_ hfind)
          intro hm
          rcases List.mem_cons.mp hm with h2 | h2
          · exact ha (by rw [hx, h2])
          · exact hseen h2

/-!
## Claims
-/

/-- C8: remove deletes, for each tracked name, every manifest line mentioning
it — in particular its FileReference and BuildFileEntry declarations and its
group and build-phase list entries, which all carry the name in their inline
comment; a name with no matching line removes nothing and leaves the file
unwritten for that name; and the batch loop processes every remaining name
regardless. -/
theorem c8_theorem :
    (∀ (lines : List Str) (name l : Str),
        l ∈ (remove_file_from_project lines name).1 → containsSub name l = false) ∧
    (∀ (lines : List Str) (name : Str),
        (∀ l ∈ lines, containsSub name l = false) →
        remove_file_from_project lines name = (lines, 0) ∧
          remove_step lines name = lines) ∧
    (∀ (lines names : List Str) (n : Str),
        n ∈ names → ∀ l ∈ remove_batch lines names, containsSub n l = false) := by
  refine ⟨?_, ?_, ?_⟩
  · intro lines name l h
    exact remove_lines_not_contains lines name false l h
  · intro lines name h
    have hid := remove_lines_id lines name h
    refine ⟨hid, ?_⟩
    simp [remove_step, remove_file_from_project, hid]
  · intro lines names n hn l hl
    exact remove_batch_clears names lines n hn l hl

/-- C8 witness: a name with no occurrences removes nothing and skips the
write, instantiated concretely. -/
theorem c8_witness :
    remove_file_from_project [str "keep"] (str "Gone.swift") = ([str "keep"], 0) ∧
    remove_step [str "keep"] (str "Gone.swift") = [str "keep"] :=
  c8_theorem.2.1 [str "keep"] (str "Gone.swift") (by decide)

/-- C10: removal matches by substring: every line containing the name is
deleted by the remove script (so lines of TouchGrassApp.swift go away when
App.swift is removed, the opened multi-line entry dragging its continuation
lines along), and sync's stale-entry removal keeps exactly the lines not
containing the name. -/
theorem c10_theorem :
    (∀ (lines : List Str) (name l : Str),
        l ∈ lines → containsSub name l = true →
        ¬ l ∈ (remove_file_from_project lines name).1) ∧
    (∀ (name c : Str),
        (splitNL c).filter (fun l => ! containsSub name l) ≠ [] →
        splitNL (removeLinesContaining name c) =
          (splitNL c).filter (fun l => ! containsSub name l)) ∧
    (containsSub (str "App.swift") (str "TouchGrassApp.swift") = true ∧
      remove_file_from_project c10lines (str "App.swift") = ([], 2) ∧
      removeLinesContaining (str "App.swift") c10sync = str "keep me") := by
  refine ⟨?_, ?_, ?_⟩
  · intro lines name l hl hc hmem
    have hfalse := remove_lines_not_contains lines name false l hmem
    rw [hc] at hfalse
    simp at hfalse
  · intro name c hne
    rw [removeLinesContaining]
    refine splitNL_joinNL _ hne ?_
    intro l hl
    exact no_nl_of_mem_splitNL c l (List.mem_filter.mp hl).1
  · exact ⟨by decide, by decide, by decide⟩

/-- C10 witness: the overmatching deletion and the exact-filter law of the
sync-side removal, instantiated concretely. -/
theorem c10_witness :
    (¬ (str "x TouchGrassApp.swift y") ∈
      (remove_file_from_project [str "x TouchGrassApp.swift y", str "keep me"]
        (str "App.swift")).1) ∧
    splitNL (removeLinesContaining (str "App.swift") c10sync) =
      (splitNL c10sync).filter (fun l => ! containsSub (str "App.swift") l) :=
  ⟨c10_theorem.1 [str "x TouchGrassApp.swift y", str "keep me"] (str "App.swift")
      (str "x TouchGrassApp.swift y") (by decide) (by decide),
   c10_theorem.2.1 (str "App.swift") c10sync (by decide)⟩

/-- C2 (amended): when after the first run the scanned names and the names
found by the tracking extractor coincide, the second sync run computes zero
removals and zero additions, leaves the content untouched and does not
write, so the manifest stays byte-identical; unconditional idempotence fails
because a scanned name the extractor regex cannot recognize is re-added with
fresh identifiers on every run (see the counterexample). -/
theorem c2_theorem (c : Str) (fs : List (Str × Str)) (ids : List Str)
    (h1 : ∀ n ∈ get_existing_files c, n ∈ fs.map Prod.fst)
    (h2 : ∀ n ∈ fs.map Prod.fst, n ∈ get_existing_files c) :
    sync_main c fs ids = (c, 0, 0) ∧ sync_trace c fs ids = [Ev.readF projPath] := by
  have hrem : files_to_remove c (fs.map Prod.fst) = [] := by
    rw [files_to_remove, List.filter_eq_nil_iff]
    intro n hn
    have hm : n ∈ fs.map Prod.fst :=
      h1 n (mem_of_mem_distinctFrom (get_existing_files c) [] n hn)
    have hcon : (fs.map Prod.fst).contains n = true := (contains_iff _ _).mpr hm
    intro hb
    simp only [hcon] at hb
    simp at hb
  have hr : remove_missing_files c fs = (c, 0) := by
    simp [remove_missing_files, hrem]
  have hadd : files_to_add c fs = [] := by
    rw [files_to_add, List.filter_eq_nil_iff]
    intro p hp
    have hkey : p.1 ∈ fs.map Prod.fst := filesystem_dict_fst fs p hp
    have hg : p.1 ∈ get_existing_files c := h2 p.1 hkey
    have hcon : (get_existing_files c).contains p.1 = true := (contains_iff _ _).mpr hg
    intro hb
    simp only [hcon] at hb
    simp at hb
  have ha : add_missing_files c fs ids = (c, 0) := by
    simp [add_missing_files, hadd]
  refine ⟨?_, ?_⟩
  · simp [sync_main, hr, ha]
  · simp [sync_trace, sync_main, hr, ha]

/-- C2 witness: a manifest already in sync with the scan is untouched. -/
theorem c2_witness :
    sync_main c2w c2wfs [] = (c2w, 0, 0) ∧ sync_trace c2w c2wfs [] = [Ev.readF projPath] :=
  c2_theorem c2w c2wfs [] (by decide) (by decide)

/-- C2 counterexample: with the scanned file A-B.swift, whose name the
extractor regex never matches, the second sync run again computes one
addition, rewrites the file, and its output differs from the first run's
output, so the manifest is not byte-identical. -/
theorem c2_counterexample :
    (sync_main c2start c2fs c2ids1).2.2 = 1 ∧
    (sync_main (sync_main c2start c2fs c2ids1).1 c2fs c2ids2).2.2 = 1 ∧
    (sync_main (sync_main c2start c2fs c2ids1).1 c2fs c2ids2).1 ≠
      (sync_main c2start c2fs c2ids1).1 := by
  decide

/-- C3 (amended): sync's removal set is exactly the tracked names absent
from the scan; its addition set is exactly the scanned names untracked in
the post-removal content, minus the hardcoded exclusion
GrassIconPreview.swift; removals are all applied before additions; and in
the scenario with A.swift and B.swift tracked and only A.swift scanned, the
result tracks A.swift alone with every B.swift line removed.  The claim's
unqualified "adds exactly the scanned untracked names" fails on the
exclusion (see the counterexample). -/
theorem c3_theorem :
    (∀ (c : Str) (fsNames : List Str) (n : Str),
        n ∈ files_to_remove c fsNames ↔ n ∈ get_existing_files c ∧ ¬ n ∈ fsNames) ∧
    (∀ (c : Str) (fs : List (Str × Str)) (p : Str × Str),
        p ∈ files_to_add c fs ↔
          p ∈ filesystem_dict fs ∧ ¬ p.1 ∈ get_existing_files c ∧ p.1 ≠ skipName) ∧
    (∀ (c : Str) (fs : List (Str × Str)) (ids : List Str),
        sync_main c fs ids =
          ((add_missing_files (remove_missing_files c fs).1 fs ids).1,
            (remove_missing_files c fs).2,
            (add_missing_files (remove_missing_files c fs).1 fs ids).2)) ∧
    (distinct (get_existing_files (sync_main c3ab c3afs c3ids).1) = [str "A.swift"] ∧
      (splitNL (sync_main c3ab c3afs c3ids).1).all
        (fun l => ! containsSub (str "B.swift") l) = true) := by
  refine ⟨?_, ?_, ?_, ?_⟩
  · intro c fsNames n
    rw [files_to_remove, List.mem_filter]
    constructor
    · rintro ⟨hd, hb⟩
      refine ⟨mem_of_mem_distinctFrom _ _ n hd, ?_⟩
      intro hm
      rw [(contains_iff fsNames n).mpr hm] at hb
      simp at hb
    · rintro ⟨hg, hm⟩
      refine ⟨mem_distinctFrom _ [] n hg (by simp), ?_⟩
      cases hb : fsNames.contains n with
      | false => simp [hb]
      | true => exact absurd ((contains_iff fsNames n).mp hb) hm
  · intro c fs p
    rw [files_to_add, List.mem_filter]
    constructor
    · rintro ⟨hd, hb⟩
      simp only [Bool.and_eq_true, Bool.not_eq_true', decide_eq_true_eq] at hb
      refine ⟨hd, ?_, hb.2⟩
      intro hm
      rw [(contains_iff _ _).mpr hm] at hb
      simp at hb
    · rintro ⟨hd, hm, hs⟩
      refine ⟨hd, ?_⟩
      simp only [Bool.and_eq_true, Bool.not_eq_true', decide_eq_true_eq]
      refine ⟨?_, hs⟩
      cases hb : (get_existing_files c).contains p.1 with
      | false => rfl
      | true => exact absurd ((contains_iff _ _).mp hb) hm
  · intro c fs ids
    rfl
  · exact ⟨by decide, by decide⟩

/-- C3 counterexample: a scanned untracked file named GrassIconPreview.swift
is never added: sync computes zero additions and leaves the manifest
unchanged although the scan-minus-tracked set is nonempty. -/
theorem c3_counterexample :
    (sync_main c3start c3fs []).2.2 = 0 ∧
    (sync_main c3start c3fs []).1 = c3start ∧
    (c3fs.map Prod.fst).contains (str "GrassIconPreview.swift") = true ∧
    (get_existing_files c3start).contains (str "GrassIconPreview.swift") = false := by
  decide

/-- C1 (amended): clean deduplicates FileReferences and BuildFileEntries
independently by display name, so referential integrity after clean is only
conditional: for duplicate-free declaration lists in which every
BuildFileEntry's name has a FileReference and, for each name, the
first-encountered BuildFileEntry references the first-encountered
FileReference, every retained BuildFileEntry's fileRef resolves to a
retained FileReference.  The unconditional claim fails: the retained entry
can be left pointing at a deleted duplicate (see the counterexample). -/
theorem c1_theorem (frs : List FileRefEntry) (bfs : List BuildRefEntry)
    (hfr : frs.Nodup)
    (hname : ∀ bf ∈ bfs, ∃ fr ∈ frs, fr.name = bf.name)
    (hpair : ∀ bf ∈ bfs, ∀ fr ∈ frs,
        frs.find? (fun e => decide (e.name = bf.name)) = some fr →
        bfs.find? (fun e => decide (e.name = bf.name)) = some bf →
        bf.fileRef = fr.refId) :
    ∀ bf ∈ clean_build_refs bfs, ∃ fr ∈ clean_file_refs frs, fr.refId = bf.fileRef := by
  intro bf hbf
  simp only [clean_build_refs] at hbf
  have hfindbf : bfs.find? (fun e => decide (e.name = bf.name)) = some bf :=
    find_of_mem_cleanDups (fun e => e.name) bfs bf hbf
  have hbfmem : bf ∈ bfs := mem_cleanDups_subset (fun e => e.name) bfs bf hbf
  rcases hname bf hbfmem with ⟨fr0, hfr0, hfr0n⟩
  have hsome : (frs.find? (fun e => decide (e.name = bf.name))).isSome := by
    rw [List.find?_isSome]
    exact ⟨fr0, hfr0, by simp [hfr0n]⟩
  rcases Option.isSome_iff_exists.mp hsome with ⟨fr1, hfind1⟩
  have hfr1mem : fr1 ∈ frs := List.mem_of_find?_eq_some hfind1
  have hfr1n : fr1.name = bf.name := by
    have := List.find?_some hfind1
    simpa using this
  have heq : bf.fileRef = fr1.refId := hpair bf hbfmem fr1 hfr1mem hfind1 hfindbf
  have hfun : (fun e : FileRefEntry => decide (e.name = fr1.name)) =
      (fun e => decide (e.name = bf.name)) := by
    funext x
    rw [hfr1n]
  have hmemclean : fr1 ∈ clean_file_refs frs := by
    simp only [clean_file_refs]
    refine mem_cleanDups_of_find (fun e => e.name) frs fr1 ?_ hfr
    rw [hfun]
    exact hfind1
  exact ⟨fr1, hmemclean, heq.symm⟩

/-- C1 witness: for a well-paired manifest the retained build entry still
resolves, instantiated concretely. -/
theorem c1_witness :
    ∃ fr ∈ clean_file_refs [c1wfr], fr.refId = c1wbf.fileRef :=
  c1_theorem [c1wfr] [c1wbf] (by decide) (by decide) (by decide) c1wbf (by decide)

/-- C1 counterexample: two FileReferences named D.swift where the retained
(first) BuildFileEntry references the second FileReference: clean keeps the
first FileReference and the first BuildFileEntry, whose fileRef then matches
no retained FileReference. -/
theorem c1_counterexample :
    clean_file_refs [c1frA, c1frB] = [c1frA] ∧
    clean_build_refs [c1bfX, c1bfY] = [c1bfX] ∧
    c1bfX.fileRef = c1frB.refId ∧
    (∀ fr ∈ clean_file_refs [c1frA, c1frB], fr.refId ≠ c1bfX.fileRef) := by
  decide

/-- C4 (amended): for duplicate-free declaration lists, clean keeps at most
one FileReference and one BuildFileEntry per display name — the first in
document order — and within one group-children or Sources block only the
first line per embedded identifier survives, lines without an identifier
always surviving; but surviving list lines are kept verbatim from the input:
a line pointing at a deleted duplicate's identifier is neither dropped nor
rewritten to the canonical identifier (see the counterexample). -/
theorem c4_theorem :
    (∀ (es : List FileRefEntry), es.Nodup →
        (∀ e1 ∈ clean_file_refs es, ∀ e2 ∈ clean_file_refs es,
            e1.name = e2.name → e1 = e2) ∧
        (∀ (e : FileRefEntry), es.find? (fun x => decide (x.name = e.name)) = some e →
            e ∈ clean_file_refs es)) ∧
    (∀ (bs : List BuildRefEntry), bs.Nodup →
        (∀ e1 ∈ clean_build_refs bs, ∀ e2 ∈ clean_build_refs bs,
            e1.name = e2.name → e1 = e2) ∧
        (∀ (e : BuildRefEntry), bs.find? (fun x => decide (x.name = e.name)) = some e →
            e ∈ clean_build_refs bs)) ∧
    (∀ (ls : List Str),
        (∀ l1 ∈ dedup_id_lines [] ls, ∀ l2 ∈ dedup_id_lines [] ls, ∀ i : Str,
            extract_id l1 = some i → extract_id l2 = some i → l1 = l2) ∧
        (∀ l ∈ dedup_id_lines [] ls, l ∈ ls) ∧
        (∀ (l i : Str), extract_id l = some i →
            ls.find? (fun x => decide (extract_id x = some i)) = some l →
            l ∈ dedup_id_lines [] ls) ∧
        (∀ l ∈ ls, extract_id l = none → l ∈ dedup_id_lines [] ls)) := by
  refine ⟨?_, ?_, ?_⟩
  · intro es hnd
    refine ⟨?_, ?_⟩
    · intro e1 h1 e2 h2 hk
      simp only [clean_file_refs] at h1 h2
      exact cleanDups_key_unique (fun e => e.name) es e1 e2 h1 h2 hk
    · intro e hfind
      simp only [clean_file_refs]
      exact mem_cleanDups_of_find (fun e => e.name) es e hfind hnd
  · intro bs hnd
    refine ⟨?_, ?_⟩
    · intro e1 h1 e2 h2 hk
      simp only [clean_build_refs] at h1 h2
      exact cleanDups_key_unique (fun e => e.name) bs e1 e2 h1 h2 hk
    · intro e hfind
      simp only [clean_build_refs]
      exact mem_cleanDups_of_find (fun e => e.name) bs e hfind hnd
  · intro ls
    refine ⟨?_, ?_, ?_, ?_⟩
    · intro l1 h1 l2 h2 i hi1 hi2
      exact dedup_id_unique ls [] l1 l2 i h1 h2 hi1 hi2
    · intro l hl
      exact dedup_id_subset ls [] l hl
    · intro l i hid hfind
      exact dedup_id_first_kept ls [] l i hid (by simp) hfind
    · intro l hl hid
      exact dedup_id_none_kept ls [] l hl hid

/-- C4 witness: retention of the first duplicate and of list lines,
instantiated concretely. -/
theorem c4_witness :
    c4frA ∈ clean_file_refs [c4frA, c4frB] ∧
    c4lineA ∈ dedup_id_lines [] [c4lineA, c4lineB] :=
  ⟨(c4_theorem.1 [c4frA, c4frB] (by decide)).2 c4frA (by decide),
   (c4_theorem.2.2 [c4lineA, c4lineB]).2.2.1 c4lineA c4frA.refId (by decide) (by decide)⟩

/-- C4 counterexample: after clean the children block still contains, kept
verbatim, the line pointing at the deleted duplicate's identifier — it is
neither dropped nor replaced with the canonical identifier (the canonical
identifier does not occur in it). -/
theorem c4_counterexample :
    clean_file_refs [c4frA, c4frB] = [c4frA] ∧
    extract_id c4lineB = some c4frB.refId ∧
    dedup_id_lines [] [c4lineA, c4lineB] = [c4lineA, c4lineB] ∧
    (∀ fr ∈ clean_file_refs [c4frA, c4frB], fr.refId ≠ c4frB.refId) ∧
    containsSub c4frA.refId c4lineB = false := by
  decide

/-- C5 (amended): a generated identifier is the uppercased first 24 hex
digits of the fresh uuid draw and of nothing else: for canonical draws the
last eight hex digits are discarded, no part of the manifest or of earlier
draws enters, and `generate_id` depends only on the first 24 characters of
its draw — so distinctness from the manifest's identifiers is not checked
and not guaranteed (see the counterexample). -/
theorem c5_theorem (a b c d e : Str)
    (ha : a.length = 8) (hb : b.length = 4) (hc : c.length = 4) (hd : d.length = 4)
    (hna : ∀ x ∈ a, Char.toUpper x ≠ '-') (hnb : ∀ x ∈ b, Char.toUpper x ≠ '-')
    (hnc : ∀ x ∈ c, Char.toUpper x ≠ '-') (hnd : ∀ x ∈ d, Char.toUpper x ≠ '-')
    (hne : ∀ x ∈ e, Char.toUpper x ≠ '-') :
    generate_uuid (a ++ str "-" ++ b ++ str "-" ++ c ++ str "-" ++ d ++ str "-" ++ e) =
      (a ++ b ++ c ++ d ++ List.take 4 e).map Char.toUpper ∧
    (∀ u v : Str, List.take 24 u = List.take 24 v → generate_id u = generate_id v) := by
  have hfil : ∀ (s : Str), (∀ x ∈ s, Char.toUpper x ≠ '-') →
      (s.map Char.toUpper).filter (fun ch => ch ≠ '-') = s.map Char.toUpper := by
    intro s hs
    refine List.filter_eq_self.mpr ?_
    intro y hy
    rcases List.mem_map.mp hy with ⟨x, hx, hxy⟩
    subst hxy
    simp [hs x hx]
  have hdash : ((str "-").map Char.toUpper).filter (fun ch => ch ≠ '-') = [] := by decide
  constructor
  · rw [generate_uuid]
    rw [List.map_append, List.map_append, List.map_append, List.map_append,
      List.map_append, List.map_append, List.map_append, List.map_append]
    rw [List.filter_append, List.filter_append, List.filter_append, List.filter_append,
      List.filter_append, List.filter_append, List.filter_append, List.filter_append]
    rw [hfil a hna, hfil b hnb, hfil c hnc, hfil d hnd, hfil e hne, hdash]
    rw [List.append_nil, List.append_nil, List.append_nil, List.append_nil]
    have hstep : a.map Char.toUpper ++ b.map Char.toUpper ++ c.map Char.toUpper ++
        d.map Char.toUpper ++ e.map Char.toUpper =
        (a.map Char.toUpper ++ b.map Char.toUpper ++ c.map Char.toUpper ++
          d.map Char.toUpper) ++ e.map Char.toUpper := by
      simp [List.append_assoc]
    rw [hstep, List.take_append_eq_append_take]
    have hlen : (a.map Char.toUpper ++ b.map Char.toUpper ++ c.map Char.toUpper ++
        d.map Char.toUpper).length = 20 := by
      simp [ha, hb, hc, hd]
    rw [List.take_of_length_le (by rw [hlen]; omega), hlen]
    rw [List.map_append, List.map_append, List.map_append, List.map_append]
    rw [List.map_take]
  · intro u v h
    rw [generate_id, generate_id, h]

/-- C5 witness: the truncation law at a concrete canonical draw. -/
theorem c5_witness :
    generate_uuid (str "abcdef01" ++ str "-" ++ str "2345" ++ str "-" ++ str "6789" ++
        str "-" ++ str "abcd" ++ str "-" ++ str "ef0123456789") =
      (str "abcdef01" ++ str "2345" ++ str "6789" ++ str "abcd" ++
        List.take 4 (str "ef0123456789")).map Char.toUpper ∧
    (∀ u v : Str, List.take 24 u = List.take 24 v → generate_id u = generate_id v) :=
  c5_theorem (str "abcdef01") (str "2345") (str "6789") (str "abcd") (str "ef0123456789")
    (by decide) (by decide) (by decide) (by decide)
    (by decide) (by decide) (by decide) (by decide) (by decide)

/-- C5 counterexample: the generator performs no check against the manifest:
a draw whose 24-character truncation already occurs as an identifier in the
manifest reproduces exactly that identifier, for both generator variants. -/
theorem c5_counterexample :
    generate_uuid c5draw = c5existing ∧
    containsSub c5existing c5mani = true ∧
    generate_id (str "abcdef0123456789abcdef0123456789") = c5existing := by
  decide

/-- C6 (amended): only rebuild backs up: in its event trace every write to
the manifest path is preceded by the write of the unmodified previous
content to the backup path; sync touches only the manifest path itself — it
writes the new content in place, with no backup and no temporary file (see
the counterexample). -/
theorem c6_theorem :
    (∀ (c : Str) (scan : List (Str × Str)) (ids : List Str) (pre post : List Ev) (x : Str),
        rebuild_trace c scan ids = pre ++ Ev.writeF projPath x :: post →
        Ev.writeF backupPath c ∈ pre) ∧
    (∀ (c : Str) (fs : List (Str × Str)) (ids : List Str),
        ∀ e ∈ sync_trace c fs ids, evPath e = projPath) ∧
    (∀ (c path : Str) (ids : List Str),
        ∀ e ∈ add_trace c path ids, evPath e = projPath) := by
  refine ⟨?_, ?_, ?_⟩
  · intro c scan ids pre post x h
    rcases pre with _ | ⟨a, _ | ⟨b, _ | ⟨d, _ | ⟨f, rest⟩⟩⟩⟩
    · simp only [rebuild_trace, List.nil_append, List.cons.injEq] at h
      exact absurd h.1 (by simp)
    · simp only [rebuild_trace, List.cons_append, List.nil_append, List.cons.injEq] at h
      rcases h with ⟨_, h2, _⟩
      have hpaths : backupPath = projPath := by
        have := h2
        simp only [Ev.writeF.injEq] at this
        exact this.1
      exact absurd hpaths (by decide)
    · simp only [rebuild_trace, List.cons_append, List.nil_append, List.cons.injEq] at h
      rcases h with ⟨_, _, h3, _⟩
      exact absurd h3 (by simp)
    · simp only [rebuild_trace, List.cons_append, List.nil_append, List.cons.injEq] at h
      rcases h with ⟨_, h2, _, _, _⟩
      rw [h2]
      simp
    · simp only [rebuild_trace, List.cons_append, List.nil_append, List.cons.injEq] at h
      rcases h with ⟨_, _, _, _, h5⟩
      exact absurd h5.symm (List.append_ne_nil_of_right_ne_nil rest (by simp))
  · intro c fs ids e he
    simp only [sync_trace] at he
    rcases List.mem_cons.mp he with h | h
    · rw [h]; rfl
    · split at h
      · simp only [List.mem_singleton] at h
        rw [h]; rfl
      · simp at h
  · intro c path ids e he
    simp only [add_trace] at he
    rcases hm : add_file_to_project c path ids with _ | c2
    · rw [hm] at he
      simp only [List.mem_singleton] at he
      rw [he]; rfl
    · rw [hm] at he
      rcases List.mem_cons.mp he with h | h
      · rw [h]; rfl
      · simp only [List.mem_singleton] at h
        rw [h]; rfl

/-- C6 witness: the backup write precedes the manifest write in a concrete
rebuild trace, and concrete sync and add events touch only the manifest
path. -/
theorem c6_witness :
    (Ev.writeF backupPath c6wc ∈
      [Ev.readF projPath, Ev.writeF backupPath c6wc, Ev.readF projPath]) ∧
    evPath (Ev.readF projPath) = projPath ∧
    evPath (Ev.writeF projPath c6wc) = projPath :=
  ⟨c6_theorem.1 c6wc [] []
      [Ev.readF projPath, Ev.writeF backupPath c6wc, Ev.readF projPath] []
      (create_project_structure c6wc [] []) rfl,
   c6_theorem.2.1 c6wc [] [] (Ev.readF projPath) (by decide),
   c6_theorem.2.2 c6wc (str "N.swift") [] (Ev.writeF projPath c6wc) (by decide)⟩

/-- C6 counterexample: sync persists a mutation by a single in-place write of
the manifest: no backup location and no temporary location is ever written,
contradicting the backup-then-commit contract. -/
theorem c6_counterexample :
    sync_main c6c [] [] = (str "rest\n", 1, 0) ∧
    sync_trace c6c [] [] = [Ev.readF projPath, Ev.writeF projPath (str "rest\n")] ∧
    str "rest\n" ≠ c6c ∧
    (∀ e ∈ sync_trace c6c [] [], evPath e ≠ backupPath) := by
  decide

/-- C7 (amended): a missing section sentinel is not detected: the insertion
step is a silent no-op (string replacement of an absent sentinel), no error
is raised, and the add script still commits a write of the manifest — it
does not abort before writing (see the counterexample for the concrete
trace). -/
theorem c7_theorem (c : Str) (path : Str) (ids : List Str)
    (hsent : containsSub endFileRefSec c = false)
    (hnew : containsSub (str "/* " ++ basename path ++ str " */") c = false) :
    (∃ c2, add_file_to_project c path ids = some c2) ∧
    replaceAll endFileRefSec
      (fileRefLine (ids.getD 0 []) (basename path) path ++ endFileRefSec) c = c := by
  constructor
  · simp only [add_file_to_project, hnew]
    simp only [Bool.false_eq_true, if_false]
    exact ⟨_, rfl⟩
  · exact replaceAll_of_not_contains _ _ c hsent

/-- C7 witness: on a sentinel-free manifest the add run still returns
content to write while the file-reference insertion was a no-op. -/
theorem c7_witness :
    (∃ c2, add_file_to_project c7c (str "New.swift") c7ids = some c2) ∧
    replaceAll endFileRefSec
      (fileRefLine (c7ids.getD 0 []) (basename (str "New.swift")) (str "New.swift") ++
        endFileRefSec) c7c = c7c :=
  c7_theorem c7c (str "New.swift") c7ids (by decide) (by decide)

/-- C7 counterexample: on a manifest missing every sentinel, the add script
does not fail: it silently skips every insertion and still writes the
(unchanged) manifest — the run commits output instead of aborting. -/
theorem c7_counterexample :
    containsSub endFileRefSec c7c = false ∧
    containsSub endBuildFileSec c7c = false ∧
    add_file_to_project c7c (str "New.swift") c7ids = some c7c ∧
    add_trace c7c (str "New.swift") c7ids =
      [Ev.readF projPath, Ev.writeF projPath c7c] := by
  decide

/-- C9 (amended): sync inserts a file whose path matches no category prefix
into the root TouchGrass group's children list (alongside its FileReference
declaration); the standalone add script instead omits such a file from every
group while still creating its FileReference — the two scripts disagree, so
the unqualified root-group claim fails (see the counterexample). -/
theorem c9_theorem :
    containsSub (childLine c9fid (str "X.swift")) (sync_main c9base c9fs c9ids).1 = true ∧
    containsSub (fileRefLineCore c9fid (str "X.swift") (str "Assets/X.swift"))
      (sync_main c9base c9fs c9ids).1 = true := by
  decide

/-- C9 counterexample: the standalone add script on the same unmatched path
creates the FileReference but inserts it into no group's children list. -/
theorem c9_counterexample :
    containsSub (fileRefLineCore c9fid (str "X.swift") (str "Assets/X.swift"))
      ((add_file_to_project c9base (str "Assets/X.swift") c9ids).getD []) = true ∧
    containsSub (childLine c9fid (str "X.swift"))
      ((add_file_to_project c9base (str "Assets/X.swift") c9ids).getD []) = false := by
  decide

end TouchGrass
